import Mathlib

/-!
Verification of the go-bouncer redirect core (`handlers.go`).

Strings are modelled as `List Char` (Go strings are byte sequences; every
string handled by this core is ASCII, where runes and bytes coincide).
Go map lookups are modelled as association-list lookups, fallible Go calls
return `Option`/`Except`, and the HTTP handler is modelled as a pure
function from a request value to an `Outcome`.
-/

/-- A Go-style string: a list of characters. -/
abbrev Str := List Char

/-- `startsWith pat s` holds when `pat` is a prefix of `s`
(Go `strings.HasPrefix`). -/
def startsWith : Str → Str → Bool
  | [], _ => true
  | _ :: _, [] => false
  | p :: ps, c :: cs => p = c && startsWith ps cs

/-- `endsWithL pat s` holds when `pat` is a suffix of `s`
(Go `strings.HasSuffix`). -/
def endsWithL (pat s : Str) : Bool :=
  startsWith pat.reverse s.reverse

/-- `containsSub pat s` holds when `pat` occurs as a contiguous substring of
`s` (Go `strings.Contains`). -/
def containsSub (pat : Str) : Str → Bool
  | [] => startsWith pat []
  | c :: rest => startsWith pat (c :: rest) || containsSub pat rest

/-- Split a string at the first occurrence of `c`: `none` when `c` does not
occur, otherwise the parts before and after the first occurrence.  This is
Go `strings.SplitN(s, c, 2)`: the Go call returns a one-element slice
exactly when this returns `none`. -/
def breakOnChar (c : Char) : Str → Option (Str × Str)
  | [] => none
  | x :: xs =>
      if x = c then some ([], xs)
      else (breakOnChar c xs).map (fun p => (x :: p.1, p.2))

/-- Go `strings.Split(s, c)` for a one-character separator.  Never returns
the empty list; `splitOn c [] = [[]]` as in Go. -/
def splitOn (c : Char) : Str → List Str
  | [] => [[]]
  | x :: xs =>
      if x = c then [] :: splitOn c xs
      else
        match splitOn c xs with
        | [] => [[x]]
        | h :: t => (x :: h) :: t

/-- The last character of a string, if any. -/
def lastChar : Str → Option Char
  | [] => none
  | c :: rest =>
      match rest with
      | [] => some c
      | _ :: _ => lastChar rest

/-- First-match association-list lookup, modelling a Go map read. -/
def lookupAssoc {α : Type} (k : Str) : List (Str × α) → Option α
  | [] => none
  | (k', v) :: rest => if k = k' then some v else lookupAssoc k rest

/- ## Version comparison (`compareVersions`, handlers.go lines 37-74) -/

/-- `isNotNumber` from handlers.go.  Go uses `unicode.IsNumber`; every
character this program compares is ASCII, where `unicode.IsNumber`
coincides with being one of the digits `0`-`9`. -/
def isNotNumber (c : Char) : Bool := !c.isDigit

/-- Go `strings.TrimRightFunc(s, isNotNumber)`: drop the maximal trailing
run of non-digit characters. -/
def trimRightNonDigit (s : Str) : Str :=
  (s.reverse.dropWhile isNotNumber).reverse

/-- Numeric value of a digit string (most significant first). -/
def digitsVal (s : Str) : Nat :=
  s.foldl (fun n c => n * 10 + (c.toNat - '0'.toNat)) 0

/-- Go `strconv.Atoi`: an optional single sign followed by at least one
ASCII digit; anything else is an error (`none`).  64-bit overflow is not
modelled: every version segment this program parses is far below 2^63. -/
def atoi (s : Str) : Option Int :=
  match s with
  | [] => none
  | '+' :: rest =>
      if rest ≠ [] ∧ rest.all Char.isDigit then some (digitsVal rest) else none
  | '-' :: rest =>
      if rest ≠ [] ∧ rest.all Char.isDigit then some (-(digitsVal rest : Int)) else none
  | _ =>
      if s.all Char.isDigit then some (digitsVal s) else none

/-- The per-segment integer value used inside `compareVersions`:
trim trailing non-digits, `Atoi`, and fall back to `0` on parse error. -/
def verIntVal (s : Str) : Int :=
  (atoi (trimRightNonDigit s)).getD 0

/-- The segment loop of `compareVersions`: walk the segments of `a`;
if `b` runs out first return `1`; the first unequal pair of segment values
decides; if `a` runs out (all compared segments equal) return `0`. -/
def cmpParts : List Str → List Str → Int
  | [], _ => 0
  | _ :: _, [] => 1
  | a :: as', b :: bs' =>
      if verIntVal a > verIntVal b then 1
      else if verIntVal a < verIntVal b then -1
      else cmpParts as' bs'

/-- `compareVersions` from handlers.go: equal strings compare equal,
otherwise compare dot-separated segments with `cmpParts`. -/
def compareVersions (a b : Str) : Int :=
  if a = b then 0 else cmpParts (splitOn '.' a) (splitOn '.' b)

/- ## SHA1 product pinning (`sha1Product` and helpers, handlers.go 19-31, 76-160) -/

/-- `DefaultLang` constant from handlers.go. -/
def DefaultLang : Str := "en-US".toList

/-- `DefaultOS` constant from handlers.go. -/
def DefaultOS : Str := "win".toList

/-- `firefoxSHA1ESRAliasSuffix` constant from handlers.go. -/
def firefoxSHA1ESRAliasSuffix : Str := "sha1".toList

/-- `tBirdWinXPLastRelease.Version` from handlers.go (the `xpRelease`
wrapper struct is flattened to its single string field). -/
def tBirdWinXPLastRelease : Str := "38.5.0".toList

/-- `tBirdWinXPLastBeta.Version` from handlers.go. -/
def tBirdWinXPLastBeta : Str := "43.0b1".toList

/-- The `possibleVersion` assignment inside `tBirdSha1Product`: the beta
ceiling when the version token carries a `.0b` marker, else the release
ceiling. -/
def tBirdPossibleVersion (ver : Str) : Str :=
  if containsSub ".0b".toList ver = true then tBirdWinXPLastBeta
  else tBirdWinXPLastRelease

/-- `tBirdSha1Product` from handlers.go: pin a thunderbird product suffix
for Windows XP clients.  The `switch` maps the bare channel aliases; the
fall-through splits at the first `-`, infers the channel from a `.0b`
marker in the version token, and substitutes the channel ceiling when the
version is not strictly below it. -/
def tBirdSha1Product (productSuffix : Str) : Str :=
  if productSuffix = "beta".toList ∨ productSuffix = "beta-latest".toList then
    tBirdWinXPLastBeta
  else if productSuffix = "ssl".toList then
    tBirdWinXPLastRelease ++ "-ssl".toList
  else if productSuffix = "latest".toList then
    tBirdWinXPLastRelease
  else
    match breakOnChar '-' productSuffix with
    | none =>
        if compareVersions productSuffix (tBirdPossibleVersion productSuffix) = -1 then
          productSuffix
        else tBirdPossibleVersion productSuffix
    | some (ver, rest) =>
        if compareVersions ver (tBirdPossibleVersion ver) = -1 then productSuffix
        else if rest = "ssl".toList then tBirdPossibleVersion ver ++ "-ssl".toList
        else productSuffix

/-- `firefoxSha1Product` from handlers.go: leave products ending in
`-sha1`, completes and partials untouched; send everything else to the
fixed `sha1` alias suffix. -/
def firefoxSha1Product (productSuffix : Str) : Str :=
  if endsWithL "-sha1".toList productSuffix = true then productSuffix
  else if endsWithL "-complete".toList productSuffix = true ∨
          containsSub "-partial-".toList productSuffix = true then productSuffix
  else firefoxSHA1ESRAliasSuffix

/-- `sha1Product` from handlers.go: split the product at the first `-`
into family and suffix; dispatch recognized families, pass everything
else through. -/
def sha1Product (product : Str) : Str :=
  match breakOnChar '-' product with
  | none => product
  | some (family, rest) =>
      if family = "firefox".toList then "firefox-".toList ++ firefoxSha1Product rest
      else if family = "thunderbird".toList then "thunderbird-".toList ++ tBirdSha1Product rest
      else product

/- ## Legacy-client detection (`windowsXPRegex`, handlers.go 27-35) -/

/-- The alternation group of `windowsXPRegex`
(`NT 5.1|XP|NT 5.2|NT 6.0`): does it match at the head of `s`?
The regex metacharacter `.` (with RE2's default flags, `s` off) matches
any single character except a newline. -/
def startsWithAlt (s : Str) : Bool :=
  startsWith "XP".toList s
  || (startsWith "NT 5".toList s && secondIs '1' (s.drop 4))
  || (startsWith "NT 5".toList s && secondIs '2' (s.drop 4))
  || (startsWith "NT 6".toList s && secondIs '0' (s.drop 4))
where
  /-- `secondIs d t` holds when `t` has at least two characters, the
  first is not a newline (the regex `.` does not match a newline) and
  the second is `d`. -/
  secondIs (d : Char) : Str → Bool
    | c :: x :: _ => c ≠ '\n' && x = d
    | _ => false

/-- Does `windowsXPRegex` match at the head of `s`: the literal
`Windows ` followed by one of the alternatives. -/
def windowsXPHere (s : Str) : Bool :=
  startsWith "Windows ".toList s && startsWithAlt (s.drop 8)

/-- `isWindowsXPUserAgent` from handlers.go: `windowsXPRegex.MatchString`,
i.e. the pattern matches at some position of the user-agent string. -/
def isWindowsXPUserAgent : Str → Bool
  | [] => false
  | c :: rest => windowsXPHere (c :: rest) || isWindowsXPUserAgent rest

/- ## Data model (BouncerMap, handler configuration, request) -/

/-- Modelled from the spec: `NewAliasName` normalizes a product name for
alias-table lookup (a ProductName-shaped string normalized, e.g.
lower-cased); its definition lives outside the provided source files. -/
def NewAliasName (s : Str) : Str := s.map Char.toLower

/-- `ProductLocation`: SSL-only flag plus the OS → location-template map
(modelled as an association list). -/
structure ProductLocation where
  sslOnly : Bool
  locations : List (Str × Str)
deriving DecidableEq

/-- `BouncerMap`: alias table and product table, read-only per request. -/
structure BouncerMap where
  aliases : List (Str × Str)
  productLocationMap : List (Str × ProductLocation)
deriving DecidableEq

/-- Modelled from the spec: rendering a location template with a language
tag is pure string substitution of the language placeholder (the template
type and its `ToString` method live outside the provided source files).
The placeholder token is `:lang`. -/
def locationToString (tmpl lang : Str) : Str :=
  go tmpl.length tmpl
where
  /-- Replace every occurrence of `:lang`, with enough fuel to scan the
  whole template. -/
  go : Nat → Str → Str
    | 0, s => s
    | _ + 1, [] => []
    | fuel + 1, c :: rest =>
        if startsWith ":lang".toList (c :: rest) = true then
          lang ++ go fuel ((c :: rest).drop 5)
        else c :: go fuel rest

/-- `BouncerHandler` configuration (handlers.go 207-215).  `CacheTime`
only adds a `Cache-Control` header and does not influence which outcome a
request gets; headers are outside the modelled outcome. -/
structure BouncerHandler where
  locations : BouncerMap
  pinHttpsHeaderName : Str
  pinnedBaseURLHttp : Str
  pinnedBaseURLHttps : Str
  stubRootURL : Str
deriving DecidableEq

/-- Parsed request parameters (`BouncerParams`; the query parser lives
outside the provided source files — a missing query parameter parses to
the empty string, as Go's `url.Values.Get` returns `""` for absent
keys). -/
structure BouncerParams where
  product : Str
  os : Str
  lang : Str
  printOnly : Bool
  attributionCode : Str
  attributionSig : Str
deriving DecidableEq

/-- An inbound HTTP request as the handler sees it: parsed query
parameters, the `User-Agent` header, and a header lookup (Go
`Header.Get`, returning the empty string for absent headers). -/
structure Request where
  params : BouncerParams
  userAgent : Str
  headerGet : Str → Str

/-- The terminal outcome of one request, per the response behaviors of
`BouncerHandler.ServeHTTP`: a 302 redirect, a 404, a 500, or a 200
plain-text body carrying the resolved URL (`print` path). -/
inductive Outcome where
  | redirect (url : Str)
  | notFound
  | serverError
  | printText (url : Str)
deriving DecidableEq

deriving instance DecidableEq for Except

/- ## Mirror selection, URL resolution, stub attribution (handlers.go 217-274) -/

/-- `mirrorBaseURL` from handlers.go: HTTPS base when one is configured
and HTTPS is required, HTTP base when one is configured and HTTPS is not
required, error otherwise. -/
def mirrorBaseURL (b : BouncerHandler) (sslOnly : Bool) : Except Str Str :=
  if b.pinnedBaseURLHttps ≠ [] ∧ sslOnly = true then
    .ok ("https://".toList ++ b.pinnedBaseURLHttps)
  else if b.pinnedBaseURLHttp ≠ [] ∧ sslOnly = false then
    .ok ("http://".toList ++ b.pinnedBaseURLHttp)
  else
    .error "No mirror found.".toList

/-- `BouncerHandler.URL` from handlers.go: alias substitution, product
lookup, OS lookup, mirror selection, template rendering.  `.ok none`
models the Go return `("", nil)` (no location found, a 404 for the
caller); `.error` models a non-nil error. -/
def URL (b : BouncerHandler) (pinHttps : Bool) (lang os product : Str) :
    Except Str (Option Str) :=
  let product :=
    match lookupAssoc (NewAliasName product) b.locations.aliases with
    | some aliased => aliased
    | none => product
  match lookupAssoc product b.locations.productLocationMap with
  | none => .ok none
  | some productData =>
      match lookupAssoc os productData.locations with
      | none => .ok none
      | some locationPath =>
          match mirrorBaseURL b (pinHttps || productData.sslOnly) with
          | .error e => .error e
          | .ok base =>
              if base = [] then .ok none
              else .ok (some (base ++ locationToString locationPath lang))

/-- One %XX hex digit (uppercase, as Go's URL escaper emits). -/
def hexDigit (n : Nat) : Char :=
  if n < 10 then Char.ofNat ('0'.toNat + n) else Char.ofNat ('A'.toNat + (n - 10))

/-- Go `url.QueryEscape` on one ASCII character: alphanumerics and
`-_.~` unchanged, space to `+`, everything else percent-encoded. -/
def queryEscapeChar (c : Char) : Str :=
  if c.isAlphanum ∨ c = '-' ∨ c = '_' ∨ c = '.' ∨ c = '~' then [c]
  else if c = ' ' then ['+']
  else ['%', hexDigit (c.toNat / 16 % 16), hexDigit (c.toNat % 16)]

/-- Go `url.QueryEscape` (ASCII fragment). -/
def queryEscape (s : Str) : Str :=
  (s.map queryEscapeChar).flatten

/-- `stubAttributionURL` from handlers.go: the stub root plus the five
query parameters.  Go's `url.Values.Encode` emits keys in sorted order:
`attribution_code`, `attribution_sig`, `lang`, `os`, `product`. -/
def stubAttributionURL (b : BouncerHandler) (p : BouncerParams) : Str :=
  b.stubRootURL ++ "?attribution_code=".toList ++ queryEscape p.attributionCode
    ++ "&attribution_sig=".toList ++ queryEscape p.attributionSig
    ++ "&lang=".toList ++ queryEscape p.lang
    ++ "&os=".toList ++ queryEscape p.os
    ++ "&product=".toList ++ queryEscape p.product

/-- `shouldPinHttps` from handlers.go: false when no pin header name is
configured, otherwise test whether that header's value is `https`. -/
def shouldPinHttps (b : BouncerHandler) (req : Request) : Bool :=
  if b.pinHttpsHeaderName = [] then false
  else req.headerGet b.pinHttpsHeaderName = "https".toList

/- ## The request handler (`BouncerHandler.ServeHTTP`, handlers.go 276-336) -/

/-- The OS/Lang defaulting that `ServeHTTP` performs on the parsed
parameters before anything else (product is left untouched). -/
def defaultedParams (p : BouncerParams) : BouncerParams :=
  { p with
    os := if p.os = [] then DefaultOS else p.os
    lang := if p.lang = [] then DefaultLang else p.lang }

/-- The stub-attribution gate condition of `ServeHTTP` (handlers.go
294-298): stub root configured, both attribution fields non-empty, the
product contains `-stub`, and the client is not a Windows XP client. -/
def stubCond (b : BouncerHandler) (p : BouncerParams) (userAgent : Str) : Prop :=
  b.stubRootURL ≠ [] ∧ p.attributionCode ≠ [] ∧ p.attributionSig ≠ [] ∧
    containsSub "-stub".toList p.product = true ∧
    isWindowsXPUserAgent userAgent = false

instance (b : BouncerHandler) (p : BouncerParams) (ua : Str) :
    Decidable (stubCond b p ua) := by
  unfold stubCond; infer_instance

/-- The tail of `ServeHTTP` after the stub gate: the Windows XP pinning
hack followed by `URL` resolution and the response (500 on mirror error,
404 on no location, plain text on `print`, 302 otherwise). -/
def resolveBranch (b : BouncerHandler) (req : Request) (p : BouncerParams) : Outcome :=
  let product :=
    if p.os = "win".toList ∧ isWindowsXPUserAgent req.userAgent = true then
      sha1Product p.product
    else p.product
  match URL b (shouldPinHttps b req) p.lang p.os product with
  | .error _ => .serverError
  | .ok none => .notFound
  | .ok (some u) => if p.printOnly then .printText u else .redirect u

/-- `BouncerHandler.ServeHTTP` from handlers.go as a pure function:
empty product means the fixed fallback redirect; then OS/Lang defaulting;
then the stub-attribution gate; then pinning and resolution. -/
def serveHTTP (b : BouncerHandler) (req : Request) : Outcome :=
  if req.params.product = [] then .redirect "http://www.mozilla.org/".toList
  else if stubCond b (defaultedParams req.params) req.userAgent then
    .redirect (stubAttributionURL b (defaultedParams req.params))
  else resolveBranch b req (defaultedParams req.params)

/- ## Concrete sample configurations and requests -/

/-- A handler with HTTP base configured but no HTTPS base. -/
def c4Handler : BouncerHandler :=
  { locations := ⟨[], []⟩
    pinHttpsHeaderName := []
    pinnedBaseURLHttp := "mirror.example".toList
    pinnedBaseURLHttps := []
    stubRootURL := [] }

/-- A handler with only an HTTPS base configured. -/
def c4HttpsHandler : BouncerHandler :=
  { locations := ⟨[], []⟩
    pinHttpsHeaderName := []
    pinnedBaseURLHttp := []
    pinnedBaseURLHttps := "secure.example".toList
    stubRootURL := [] }

/-- A handler with a stub root configured and an empty product table. -/
def c7Handler : BouncerHandler :=
  { locations := ⟨[], []⟩
    pinHttpsHeaderName := []
    pinnedBaseURLHttp := "download.example".toList
    pinnedBaseURLHttps := []
    stubRootURL := "https://stub.example/v1".toList }

/-- A stub-installer request with both attribution fields set, from a
non-legacy client. -/
def c7Request : Request :=
  { params :=
      { product := "firefox-stub".toList
        os := []
        lang := []
        printOnly := false
        attributionCode := "code1".toList
        attributionSig := "sig1".toList }
    userAgent := "Mozilla/5.0 (Windows NT 10.0)".toList
    headerGet := fun _ => [] }

/-- A fully-populated handler used to exercise the empty-product path. -/
def c9Handler : BouncerHandler :=
  { locations := ⟨[], []⟩
    pinHttpsHeaderName := "X-Pin".toList
    pinnedBaseURLHttp := "dl.example".toList
    pinnedBaseURLHttps := "dls.example".toList
    stubRootURL := "https://stub.example".toList }

/-- A request with an empty product but every other field populated. -/
def c9Request : Request :=
  { params :=
      { product := []
        os := "osx".toList
        lang := "de".toList
        printOnly := true
        attributionCode := "x".toList
        attributionSig := "y".toList }
    userAgent := "Mozilla/4.0 (compatible; MSIE 6.1; Windows XP)".toList
    headerGet := fun _ => "https".toList }

/-- A handler with a stub root and an empty product table. -/
def c10Handler : BouncerHandler :=
  { locations := ⟨[], []⟩
    pinHttpsHeaderName := []
    pinnedBaseURLHttp := "dl.example".toList
    pinnedBaseURLHttps := []
    stubRootURL := "https://stub.example/a".toList }

/-- `c10Handler` with the stub root removed, disabling the stub path. -/
def c10HandlerNoStub : BouncerHandler :=
  { locations := ⟨[], []⟩
    pinHttpsHeaderName := []
    pinnedBaseURLHttp := "dl.example".toList
    pinnedBaseURLHttps := []
    stubRootURL := [] }

/-- A stub-installer request for a product that is absent from the
product table. -/
def c10Request : Request :=
  { params :=
      { product := "firefox-44.0-stub".toList
        os := "win64".toList
        lang := "fr".toList
        printOnly := false
        attributionCode := "cc".toList
        attributionSig := "ss".toList }
    userAgent := "curl/7.0".toList
    headerGet := fun _ => [] }

/- ## Helper lemmas about the string utilities -/

theorem startsWith_iff (p s : Str) : startsWith p s = true ↔ ∃ v, s = p ++ v := by
  induction p generalizing s with
  | nil => simp [startsWith]
  | cons a ps ih =>
      cases s with
      | nil => simp [startsWith]
      | cons c cs =>
          simp only [startsWith, Bool.and_eq_true, decide_eq_true_eq, ih,
            List.cons_append, List.cons.injEq]
          constructor
          · rintro ⟨rfl, v, rfl⟩
            exact ⟨v, rfl, rfl⟩
          · rintro ⟨v, rfl, rfl⟩
            exact ⟨rfl, v, rfl⟩

theorem endsWithL_iff (p s : Str) : endsWithL p s = true ↔ ∃ u, s = u ++ p := by
  unfold endsWithL
  rw [startsWith_iff]
  constructor
  · rintro ⟨v, hv⟩
    refine ⟨v.reverse, ?_⟩
    have h2 := congrArg List.reverse hv
    simpa using h2
  · rintro ⟨u, rfl⟩
    exact ⟨u.reverse, by simp⟩

theorem containsSub_iff (p s : Str) : containsSub p s = true ↔ ∃ u v, s = u ++ p ++ v := by
  induction s with
  | nil =>
      constructor
      · intro h
        obtain ⟨v, hv⟩ := (startsWith_iff p []).mp (by simpa [containsSub] using h)
        exact ⟨[], v, by simpa using hv⟩
      · rintro ⟨u, v, huv⟩
        have h2 : u = [] ∧ p = [] ∧ v = [] := by
          have h3 := huv.symm
          rw [List.append_eq_nil] at h3
          obtain ⟨h4, h5⟩ := h3
          rw [List.append_eq_nil] at h4
          exact ⟨h4.1, h4.2, h5⟩
        obtain ⟨rfl, rfl, rfl⟩ := h2
        decide
  | cons c cs ih =>
      simp only [containsSub, Bool.or_eq_true, startsWith_iff, ih]
      constructor
      · rintro (⟨v, hv⟩ | ⟨u, v, huv⟩)
        · exact ⟨[], v, by simp [hv]⟩
        · exact ⟨c :: u, v, by simp [huv]⟩
      · rintro ⟨u, v, huv⟩
        cases u with
        | nil =>
            left
            exact ⟨v, by simpa using huv⟩
        | cons x u' =>
            right
            simp only [List.cons_append, List.cons.injEq] at huv
            obtain ⟨rfl, h2⟩ := huv
            exact ⟨u', v, h2⟩

theorem count_le_of_containsSub (p s : Str) (c : Char)
    (h : containsSub p s = true) : p.count c ≤ s.count c := by
  obtain ⟨u, v, rfl⟩ := (containsSub_iff p s).mp h
  simp only [List.count_append]
  omega

theorem breakOnChar_eq_none (c : Char) (s : Str)
    (h : breakOnChar c s = none) : c ∉ s := by
  induction s with
  | nil => simp
  | cons x xs ih =>
      unfold breakOnChar at h
      by_cases hx : x = c
      · simp [hx] at h
      · rw [if_neg hx, Option.map_eq_none'] at h
        simp only [List.mem_cons, not_or]
        exact ⟨fun e => hx e.symm, ih h⟩

theorem breakOnChar_eq_some (c : Char) (s u t : Str)
    (h : breakOnChar c s = some (u, t)) : s = u ++ c :: t ∧ c ∉ u := by
  induction s generalizing u t with
  | nil => simp [breakOnChar] at h
  | cons x xs ih =>
      unfold breakOnChar at h
      by_cases hx : x = c
      · rw [if_pos hx, Option.some.injEq, Prod.mk.injEq] at h
        obtain ⟨rfl, rfl⟩ := h
        subst hx
        exact ⟨rfl, by simp⟩
      · rw [if_neg hx, Option.map_eq_some'] at h
        obtain ⟨⟨u', t'⟩, hb, heq⟩ := h
        rw [Prod.mk.injEq] at heq
        obtain ⟨h1, h2⟩ := heq
        obtain ⟨hs, hnv⟩ := ih u' t' hb
        refine ⟨?_, ?_⟩
        · rw [← h1, ← h2, hs]
          rfl
        · rw [← h1]
          simp only [List.mem_cons, not_or]
          exact ⟨fun e => hx e.symm, hnv⟩

theorem breakOnChar_append (c : Char) (u t : Str) (h : c ∉ u) :
    breakOnChar c (u ++ c :: t) = some (u, t) := by
  induction u with
  | nil => simp [breakOnChar]
  | cons x u' ih =>
      simp only [List.mem_cons, not_or] at h
      have hx : ¬ x = c := fun e => h.1 e.symm
      simp only [List.cons_append]
      unfold breakOnChar
      rw [if_neg hx, ih h.2]
      rfl

theorem lastChar_append (u v : Str) (h : v ≠ []) :
    lastChar (u ++ v) = lastChar v := by
  induction u with
  | nil => rfl
  | cons x u' ih =>
      have h2 : u' ++ v ≠ [] := by
        intro e
        exact h (List.append_eq_nil.mp e).2
      rw [List.cons_append]
      cases he : u' ++ v with
      | nil => exact absurd he h2
      | cons y ys =>
          have h3 : lastChar (x :: y :: ys) = lastChar (y :: ys) := rfl
          rw [h3, ← he, ih]

/- ## Lemmas about the pinning functions -/

theorem firefoxSha1Product_range (s : Str) :
    firefoxSha1Product s = s ∨ firefoxSha1Product s = firefoxSHA1ESRAliasSuffix := by
  unfold firefoxSha1Product
  by_cases h1 : endsWithL "-sha1".toList s = true
  · rw [if_pos h1]
    exact Or.inl rfl
  · rw [if_neg h1]
    by_cases h2 : endsWithL "-complete".toList s = true ∨
        containsSub "-partial-".toList s = true
    · rw [if_pos h2]
      exact Or.inl rfl
    · rw [if_neg h2]
      exact Or.inr rfl

theorem firefoxSha1Product_idem (s : Str) :
    firefoxSha1Product (firefoxSha1Product s) = firefoxSha1Product s := by
  rcases firefoxSha1Product_range s with h | h
  · rw [h]
    exact h
  · rw [h]
    decide

theorem tBirdPossibleVersion_range (v : Str) :
    tBirdPossibleVersion v = tBirdWinXPLastBeta ∨
    tBirdPossibleVersion v = tBirdWinXPLastRelease := by
  unfold tBirdPossibleVersion
  by_cases hc : containsSub ".0b".toList v = true
  · rw [if_pos hc]
    exact Or.inl rfl
  · rw [if_neg hc]
    exact Or.inr rfl

theorem tBirdSha1Product_range (s : Str) :
    tBirdSha1Product s = s ∨ tBirdSha1Product s = tBirdWinXPLastBeta ∨
    tBirdSha1Product s = tBirdWinXPLastRelease ∨
    tBirdSha1Product s = tBirdWinXPLastRelease ++ "-ssl".toList ∨
    tBirdSha1Product s = tBirdWinXPLastBeta ++ "-ssl".toList := by
  by_cases h1 : s = "beta".toList ∨ s = "beta-latest".toList
  · have heq : tBirdSha1Product s = tBirdWinXPLastBeta := by
      unfold tBirdSha1Product
      rw [if_pos h1]
    exact Or.inr (Or.inl heq)
  by_cases h2 : s = "ssl".toList
  · have heq : tBirdSha1Product s = tBirdWinXPLastRelease ++ "-ssl".toList := by
      unfold tBirdSha1Product
      rw [if_neg h1, if_pos h2]
    exact Or.inr (Or.inr (Or.inr (Or.inl heq)))
  by_cases h3 : s = "latest".toList
  · have heq : tBirdSha1Product s = tBirdWinXPLastRelease := by
      unfold tBirdSha1Product
      rw [if_neg h1, if_neg h2, if_pos h3]
    exact Or.inr (Or.inr (Or.inl heq))
  cases hb : breakOnChar '-' s with
  | none =>
      have heq : tBirdSha1Product s =
          if compareVersions s (tBirdPossibleVersion s) = -1 then s
          else tBirdPossibleVersion s := by
        unfold tBirdSha1Product
        rw [if_neg h1, if_neg h2, if_neg h3, hb]
      by_cases h4 : compareVersions s (tBirdPossibleVersion s) = -1
      · rw [heq, if_pos h4]
        exact Or.inl rfl
      · rw [heq, if_neg h4]
        rcases tBirdPossibleVersion_range s with h | h
        · rw [h]
          exact Or.inr (Or.inl rfl)
        · rw [h]
          exact Or.inr (Or.inr (Or.inl rfl))
  | some vr =>
      obtain ⟨ver, rest⟩ := vr
      have heq : tBirdSha1Product s =
          if compareVersions ver (tBirdPossibleVersion ver) = -1 then s
          else if rest = "ssl".toList then tBirdPossibleVersion ver ++ "-ssl".toList
          else s := by
        unfold tBirdSha1Product
        rw [if_neg h1, if_neg h2, if_neg h3, hb]
      by_cases h4 : compareVersions ver (tBirdPossibleVersion ver) = -1
      · rw [heq, if_pos h4]
        exact Or.inl rfl
      rw [heq, if_neg h4]
      by_cases h5 : rest = "ssl".toList
      · rw [if_pos h5]
        rcases tBirdPossibleVersion_range ver with h | h
        · rw [h]
          exact Or.inr (Or.inr (Or.inr (Or.inr rfl)))
        · rw [h]
          exact Or.inr (Or.inr (Or.inr (Or.inl rfl)))
      · rw [if_neg h5]
        exact Or.inl rfl

theorem tBirdSha1Product_idem (s : Str) :
    tBirdSha1Product (tBirdSha1Product s) = tBirdSha1Product s := by
  rcases tBirdSha1Product_range s with h | h | h | h | h
  · rw [h]
    exact h
  all_goals rw [h]; decide

theorem sha1Product_eq_of_none (p : Str) (hb : breakOnChar '-' p = none) :
    sha1Product p = p := by
  unfold sha1Product
  rw [hb]

theorem sha1Product_firefox (rest : Str) :
    sha1Product ("firefox-".toList ++ rest) = "firefox-".toList ++ firefoxSha1Product rest := by
  have hb : breakOnChar '-' ("firefox-".toList ++ rest)
      = some ("firefox".toList, rest) := by
    have he : "firefox-".toList ++ rest = "firefox".toList ++ '-' :: rest := rfl
    rw [he]
    exact breakOnChar_append _ _ _ (by decide)
  unfold sha1Product
  rw [hb]
  simp

theorem sha1Product_thunderbird (rest : Str) :
    sha1Product ("thunderbird-".toList ++ rest)
      = "thunderbird-".toList ++ tBirdSha1Product rest := by
  have hb : breakOnChar '-' ("thunderbird-".toList ++ rest)
      = some ("thunderbird".toList, rest) := by
    have he : "thunderbird-".toList ++ rest = "thunderbird".toList ++ '-' :: rest := rfl
    rw [he]
    exact breakOnChar_append _ _ _ (by decide)
  unfold sha1Product
  rw [hb]
  simp

theorem sha1Product_cases (p : Str) :
    sha1Product p = p ∨
    (∃ rest, sha1Product p = "firefox-".toList ++ firefoxSha1Product rest) ∨
    (∃ rest, sha1Product p = "thunderbird-".toList ++ tBirdSha1Product rest) := by
  cases hb : breakOnChar '-' p with
  | none => exact Or.inl (sha1Product_eq_of_none p hb)
  | some fr =>
      obtain ⟨family, rest⟩ := fr
      by_cases hf : family = "firefox".toList
      · refine Or.inr (Or.inl ⟨rest, ?_⟩)
        unfold sha1Product
        rw [hb]
        simp [hf]
      by_cases ht : family = "thunderbird".toList
      · refine Or.inr (Or.inr ⟨rest, ?_⟩)
        unfold sha1Product
        rw [hb]
        simp [hf, ht]
      · refine Or.inl ?_
        unfold sha1Product
        rw [hb]
        change (if family = "firefox".toList then
            "firefox-".toList ++ firefoxSha1Product rest
          else if family = "thunderbird".toList then
            "thunderbird-".toList ++ tBirdSha1Product rest
          else p) = p
        rw [if_neg hf, if_neg ht]

theorem sha1Product_idem_general (p : Str) :
    sha1Product (sha1Product p) = sha1Product p := by
  rcases sha1Product_cases p with h | ⟨rest, h⟩ | ⟨rest, h⟩
  · rw [h]
    exact h
  · rw [h, sha1Product_firefox, firefoxSha1Product_idem]
  · rw [h, sha1Product_thunderbird, tBirdSha1Product_idem]

/- ## Update-package suffixes are never altered -/

theorem updateMarker_has_dash (s : Str)
    (h : endsWithL "-complete".toList s = true ∨
         containsSub "-partial-".toList s = true) : '-' ∈ s := by
  rcases h with h | h
  · obtain ⟨u, rfl⟩ := (endsWithL_iff _ _).mp h
    exact List.mem_append.mpr (Or.inr (by decide))
  · obtain ⟨u, v, rfl⟩ := (containsSub_iff _ _).mp h
    exact List.mem_append.mpr (Or.inl (List.mem_append.mpr (Or.inr (by decide))))

theorem tBird_update_unchanged (s : Str)
    (h : endsWithL "-complete".toList s = true ∨
         containsSub "-partial-".toList s = true) :
    tBirdSha1Product s = s := by
  have hdash : '-' ∈ s := updateMarker_has_dash s h
  have h1 : ¬ (s = "beta".toList ∨ s = "beta-latest".toList) := by
    rintro (rfl | rfl) <;> revert h <;> decide
  have h2 : s ≠ "ssl".toList := by
    rintro rfl
    revert h
    decide
  have h3 : s ≠ "latest".toList := by
    rintro rfl
    revert h
    decide
  cases hb : breakOnChar '-' s with
  | none => exact absurd hdash (breakOnChar_eq_none _ _ hb)
  | some vr =>
      obtain ⟨ver, rest⟩ := vr
      obtain ⟨hs, hnv⟩ := breakOnChar_eq_some _ _ _ _ hb
      have heq : tBirdSha1Product s =
          if compareVersions ver (tBirdPossibleVersion ver) = -1 then s
          else if rest = "ssl".toList then tBirdPossibleVersion ver ++ "-ssl".toList
          else s := by
        unfold tBirdSha1Product
        rw [if_neg h1, if_neg h2, if_neg h3, hb]
      by_cases h4 : compareVersions ver (tBirdPossibleVersion ver) = -1
      · rw [heq, if_pos h4]
      rw [heq, if_neg h4]
      have h5 : rest ≠ "ssl".toList := by
        rintro rfl
        rcases h with h | h
        · obtain ⟨u, hu⟩ := (endsWithL_iff _ _).mp h
          have e1 : lastChar s = some 'l' := by
            rw [hs, lastChar_append _ _ (by decide)]
            decide
          have e2 : lastChar s = some 'e' := by
            rw [hu, lastChar_append _ _ (by decide)]
            decide
          rw [e1] at e2
          exact absurd e2 (by decide)
        · have hcount := count_le_of_containsSub _ _ '-' h
          rw [hs, List.count_append, List.count_eq_zero.mpr hnv] at hcount
          revert hcount
          decide
      rw [if_neg h5]

/- ## Antisymmetry of the segment comparison on equal segment counts -/

theorem cmpParts_antisymm (as bs : List Str) (h : as.length = bs.length) :
    cmpParts as bs = -(cmpParts bs as) := by
  induction as generalizing bs with
  | nil =>
      cases bs with
      | nil => decide
      | cons b bs' => simp at h
  | cons a as' ih =>
      cases bs with
      | nil => simp at h
      | cons b bs' =>
          simp only [List.length_cons, Nat.add_right_cancel_iff] at h
          unfold cmpParts
          simp only [gt_iff_lt]
          rcases lt_trichotomy (verIntVal a) (verIntVal b) with hlt | heqv | hgt
          · have h1 : ¬ verIntVal b < verIntVal a := by omega
            simp only [if_neg h1, if_pos hlt]
          · rw [heqv]
            have h2 : ¬ verIntVal b < verIntVal b := by omega
            simp only [if_neg h2]
            exact ih bs' h
          · have h3 : ¬ verIntVal a < verIntVal b := by omega
            simp only [if_neg h3, if_pos hgt]
            decide

/- ## Characterization of the Windows XP user-agent matcher -/

theorem windowsXPHere_iff (s : Str) :
    windowsXPHere s = true ↔
      ∃ v, s = "Windows ".toList ++ v ∧ startsWithAlt v = true := by
  unfold windowsXPHere
  rw [Bool.and_eq_true, startsWith_iff]
  constructor
  · rintro ⟨⟨v, rfl⟩, halt⟩
    refine ⟨v, rfl, ?_⟩
    have hdrop : ("Windows ".toList ++ v).drop 8 = v := rfl
    rwa [hdrop] at halt
  · rintro ⟨v, rfl, halt⟩
    refine ⟨⟨v, rfl⟩, ?_⟩
    have hdrop : ("Windows ".toList ++ v).drop 8 = v := rfl
    rwa [hdrop]

theorem isWindowsXPUserAgent_iff (ua : Str) :
    isWindowsXPUserAgent ua = true ↔
      ∃ u v, ua = u ++ "Windows ".toList ++ v ∧ startsWithAlt v = true := by
  induction ua with
  | nil =>
      constructor
      · intro h
        simp [isWindowsXPUserAgent] at h
      · rintro ⟨u, v, heq, _⟩
        have hlen := congrArg List.length heq
        have h8 : ("Windows ".toList : Str).length = 8 := rfl
        simp only [List.length_nil, List.length_append, h8] at hlen
        omega
  | cons c rest ih =>
      simp only [isWindowsXPUserAgent, Bool.or_eq_true, windowsXPHere_iff, ih]
      constructor
      · rintro (⟨v, heq, halt⟩ | ⟨u, v, heq, halt⟩)
        · exact ⟨[], v, by simp [heq], halt⟩
        · exact ⟨c :: u, v, by simp [heq], halt⟩
      · rintro ⟨u, v, heq, halt⟩
        cases u with
        | nil =>
            left
            exact ⟨v, by simpa using heq, halt⟩
        | cons x u' =>
            right
            simp only [List.cons_append, List.cons.injEq, List.append_assoc] at heq
            obtain ⟨rfl, h2⟩ := heq
            refine ⟨u', v, ?_, halt⟩
            simpa [List.append_assoc] using h2

/- ## Claim theorems -/

/-- Claim C1: the claim (and the repository's own `TestSha1Product`)
states `sha1Product "firefox-latest" = "firefox-43.0.1"`.  The code in
handlers.go instead sends every firefox suffix that is not a sha1 alias,
a complete or a partial to the fixed `sha1` alias suffix, so it returns
`firefox-sha1`, not `firefox-43.0.1`: the code contradicts its own test
at this input. -/
theorem c1_sha1Product_firefox_latest :
    sha1Product "firefox-latest".toList = "firefox-sha1".toList ∧
    "firefox-sha1".toList ≠ "firefox-43.0.1".toList := by
  decide

/-- Claim C2: any product suffix that carries the complete marker (ends
with `-complete`) or a partial-from marker (contains `-partial-`) is
returned unchanged by the pinning functions of both recognized product
families, and hence by `sha1Product` on the full product name, for any
version embedded in the suffix. -/
theorem c2_update_packages_unchanged (s : Str)
    (h : endsWithL "-complete".toList s = true ∨
         containsSub "-partial-".toList s = true) :
    firefoxSha1Product s = s ∧ tBirdSha1Product s = s ∧
    sha1Product ("firefox-".toList ++ s) = "firefox-".toList ++ s ∧
    sha1Product ("thunderbird-".toList ++ s) = "thunderbird-".toList ++ s := by
  have hff : firefoxSha1Product s = s := by
    unfold firefoxSha1Product
    by_cases h1 : endsWithL "-sha1".toList s = true
    · rw [if_pos h1]
    · rw [if_neg h1, if_pos h]
  have htb : tBirdSha1Product s = s := tBird_update_unchanged s h
  refine ⟨hff, htb, ?_, ?_⟩
  · rw [sha1Product_firefox, hff]
  · rw [sha1Product_thunderbird, htb]

/-- Witness for C2 at the concrete partial suffix
`43.0.1-partial-41.0.2build1`. -/
theorem c2_witness :
    (endsWithL "-complete".toList "43.0.1-partial-41.0.2build1".toList = true ∨
     containsSub "-partial-".toList "43.0.1-partial-41.0.2build1".toList = true) ∧
    (firefoxSha1Product "43.0.1-partial-41.0.2build1".toList
        = "43.0.1-partial-41.0.2build1".toList ∧
     tBirdSha1Product "43.0.1-partial-41.0.2build1".toList
        = "43.0.1-partial-41.0.2build1".toList ∧
     sha1Product ("firefox-".toList ++ "43.0.1-partial-41.0.2build1".toList)
        = "firefox-".toList ++ "43.0.1-partial-41.0.2build1".toList ∧
     sha1Product ("thunderbird-".toList ++ "43.0.1-partial-41.0.2build1".toList)
        = "thunderbird-".toList ++ "43.0.1-partial-41.0.2build1".toList) :=
  ⟨by decide, c2_update_packages_unchanged _ (by decide)⟩

/-- Claim C3: `sha1Product` is idempotent: pinning a pinned product a
second time gives the same result, for every product string. -/
theorem c3_sha1Product_idempotent (p : Str) :
    sha1Product (sha1Product p) = sha1Product p :=
  sha1Product_idem_general p

/-- Claim C4 counterexample: the claim asserts a fallback to the HTTP
base when HTTPS is required but no HTTPS base is configured.  The code
has no such fallback: with an HTTP base configured and no HTTPS base,
requiring HTTPS yields the no-mirror error, not the HTTP base. -/
theorem c4_counterexample :
    c4Handler.pinnedBaseURLHttp ≠ [] ∧ c4Handler.pinnedBaseURLHttps = [] ∧
    mirrorBaseURL c4Handler true = Except.error "No mirror found.".toList := by
  decide

/-- Claim C4 (amended): mirror base selection returns the HTTPS base
with `https://` scheme when HTTPS is required and an HTTPS base is
configured; it returns the HTTP base with `http://` scheme when HTTPS is
not required and an HTTP base is configured; and it signals the
no-mirror error exactly when neither of those two cases applies — in
particular it errors, rather than falling back to HTTP, when HTTPS is
required but no HTTPS base is configured. -/
theorem c4_mirror_selection (b : BouncerHandler) (ssl : Bool) :
    (b.pinnedBaseURLHttps ≠ [] ∧ ssl = true →
        mirrorBaseURL b ssl = Except.ok ("https://".toList ++ b.pinnedBaseURLHttps)) ∧
    (b.pinnedBaseURLHttp ≠ [] ∧ ssl = false →
        mirrorBaseURL b ssl = Except.ok ("http://".toList ++ b.pinnedBaseURLHttp)) ∧
    (mirrorBaseURL b ssl = Except.error "No mirror found.".toList ↔
        ¬ (b.pinnedBaseURLHttps ≠ [] ∧ ssl = true) ∧
        ¬ (b.pinnedBaseURLHttp ≠ [] ∧ ssl = false)) := by
  cases ssl with
  | false =>
      by_cases h2 : b.pinnedBaseURLHttp = []
      · simp [mirrorBaseURL, h2]
      · simp [mirrorBaseURL, h2]
  | true =>
      by_cases h1 : b.pinnedBaseURLHttps = []
      · simp [mirrorBaseURL, h1]
      · simp [mirrorBaseURL, h1]

/-- Witness for C4 (amended): with only an HTTPS base configured and
HTTPS required, the HTTPS base is returned. -/
theorem c4_witness :
    (c4HttpsHandler.pinnedBaseURLHttps ≠ [] ∧ true = true) ∧
    mirrorBaseURL c4HttpsHandler true
      = Except.ok ("https://".toList ++ c4HttpsHandler.pinnedBaseURLHttps) :=
  ⟨by decide, (c4_mirror_selection c4HttpsHandler true).1 (by decide)⟩

/-- Claim C5 counterexample: `compareVersions` is not antisymmetric when
one argument has more dot-separated segments: `compareVersions "1.0" "1"`
is `1` while `compareVersions "1" "1.0"` is `0`, and `1 ≠ -0`. -/
theorem c5_counterexample :
    ¬ (compareVersions "1.0".toList "1".toList
        = -(compareVersions "1".toList "1.0".toList)) := by
  decide

/-- Claim C5 (amended): `compareVersions` satisfies
`compare(a,b) = -compare(b,a)` whenever `a` and `b` split into the same
number of dot-separated segments.  When `a` has strictly more segments
and all common segments compare equal, `compare(a,b) = 1` while
`compare(b,a) = 0`, so antisymmetry does not extend to that case. -/
theorem c5_antisymm_same_segment_count (a b : Str)
    (h : (splitOn '.' a).length = (splitOn '.' b).length) :
    compareVersions a b = -(compareVersions b a) := by
  unfold compareVersions
  by_cases hab : a = b
  · subst hab
    rw [if_pos rfl]
    decide
  · rw [if_neg hab, if_neg (fun e => hab e.symm)]
    exact cmpParts_antisymm _ _ h

/-- Witness for C5 (amended) at `43.0.2` versus `43.0.1`. -/
theorem c5_witness :
    (splitOn '.' "43.0.2".toList).length = (splitOn '.' "43.0.1".toList).length ∧
    compareVersions "43.0.2".toList "43.0.1".toList
      = -(compareVersions "43.0.1".toList "43.0.2".toList) :=
  ⟨by decide, c5_antisymm_same_segment_count _ _ (by decide)⟩

/-- Claim C6: each segment's integer value is obtained by stripping the
maximal trailing run of non-digit characters and parsing the remainder;
a failed parse yields `0` rather than an error.  Concretely `1esr` has
value `1`, `0b2` has value `0`, and `compareVersions` treats them
accordingly. -/
theorem c6_segment_value (s : Str) :
    verIntVal s = (match atoi (trimRightNonDigit s) with
                   | some n => n
                   | none => 0) ∧
    verIntVal "1esr".toList = 1 ∧
    verIntVal "0b2".toList = 0 ∧
    compareVersions "1esr".toList "1".toList = 0 ∧
    compareVersions "0b2".toList "0".toList = 0 ∧
    compareVersions "0b2".toList "1".toList = -1 := by
  refine ⟨?_, by decide, by decide, by decide, by decide, by decide⟩
  unfold verIntVal
  cases atoi (trimRightNonDigit s) with
  | none => rfl
  | some n => rfl

/-- Claim C7: for a non-empty product, the handler redirects to the stub
attribution URL exactly when the stub gate holds (stub root configured,
both attribution fields non-empty, product contains `-stub`, client not
a legacy Windows XP client); otherwise it proceeds to the pinning and
resolution branch.  The stub URL is built from the parameters before any
pinning: its product field is the original requested product. -/
theorem c7_stub_attribution_gate (b : BouncerHandler) (req : Request)
    (hp : req.params.product ≠ []) :
    (stubCond b (defaultedParams req.params) req.userAgent →
        serveHTTP b req
          = Outcome.redirect (stubAttributionURL b (defaultedParams req.params))) ∧
    (¬ stubCond b (defaultedParams req.params) req.userAgent →
        serveHTTP b req = resolveBranch b req (defaultedParams req.params)) ∧
    (defaultedParams req.params).product = req.params.product := by
  refine ⟨?_, ?_, rfl⟩
  · intro hc
    unfold serveHTTP
    rw [if_neg hp, if_pos hc]
  · intro hc
    unfold serveHTTP
    rw [if_neg hp, if_neg hc]

/-- Witness for C7: a stub request with attribution fields from a
non-legacy client is redirected to the stub URL. -/
theorem c7_witness :
    c7Request.params.product ≠ [] ∧
    stubCond c7Handler (defaultedParams c7Request.params) c7Request.userAgent ∧
    serveHTTP c7Handler c7Request
      = Outcome.redirect (stubAttributionURL c7Handler (defaultedParams c7Request.params)) :=
  ⟨by decide, by decide,
   (c7_stub_attribution_gate c7Handler c7Request (by decide)).1 (by decide)⟩

/-- Claim C8 counterexample: the claim says any user-agent containing
the literal string `XP` is classified as a legacy client.  The compiled
pattern requires the preceding literal `Windows `, so the user agent
`XP` contains `XP` yet is not matched. -/
theorem c8_counterexample :
    containsSub "XP".toList "XP".toList = true ∧
    isWindowsXPUserAgent "XP".toList = false := by
  decide

/-- Claim C8 (amended): `isWindowsXPUserAgent` returns true exactly for
user-agent strings containing `Windows ` immediately followed by one of
the pattern alternatives (`XP`, or `NT 5`/`NT 6` with any single
non-newline character — the regex `.` with RE2 default flags — between
the major digit and the minor digit `1`, `2` or `0`), and returns false
on everything else, including the empty string. -/
theorem c8_legacy_client_characterization (ua : Str) :
    (isWindowsXPUserAgent ua = true ↔
      ∃ u v, ua = u ++ "Windows ".toList ++ v ∧ startsWithAlt v = true) ∧
    isWindowsXPUserAgent [] = false :=
  ⟨isWindowsXPUserAgent_iff ua, rfl⟩

/-- Claim C9: a request whose product parameter is empty (or absent,
which parses to the empty string) is answered with a 302 redirect to the
fixed fallback site, regardless of every other parameter and header; the
outcome is a redirect, not an error. -/
theorem c9_empty_product_fallback (b : BouncerHandler) (req : Request)
    (h : req.params.product = []) :
    serveHTTP b req = Outcome.redirect "http://www.mozilla.org/".toList := by
  unfold serveHTTP
  rw [if_pos h]

/-- Witness for C9: an empty-product request with all other fields
populated still gets the fallback redirect. -/
theorem c9_witness :
    c9Request.params.product = [] ∧
    serveHTTP c9Handler c9Request = Outcome.redirect "http://www.mozilla.org/".toList :=
  ⟨rfl, c9_empty_product_fallback c9Handler c9Request rfl⟩

/-- Claim C10: when the stub gate holds, the handler's outcome is the
stub redirect for every BouncerMap whatsoever — the map is never
consulted, so even a product absent from the product table receives the
stub redirect rather than a 404. -/
theorem c10_stub_ignores_bouncer_map (b : BouncerHandler) (req : Request)
    (L : BouncerMap)
    (hc : stubCond b (defaultedParams req.params) req.userAgent) :
    serveHTTP { b with locations := L } req
      = Outcome.redirect (stubAttributionURL b (defaultedParams req.params)) := by
  have hp : req.params.product ≠ [] := by
    intro h0
    have hsub : containsSub "-stub".toList (defaultedParams req.params).product = true :=
      hc.2.2.2.1
    have hpp : (defaultedParams req.params).product = req.params.product := rfl
    rw [hpp, h0] at hsub
    exact absurd hsub (by decide)
  have hc' : stubCond { b with locations := L } (defaultedParams req.params) req.userAgent := hc
  unfold serveHTTP
  rw [if_neg hp, if_pos hc']
  rfl

/-- Witness for C10: with an empty product table the stub request is
redirected to the stub URL, while the same request against the same
handler with the stub root removed falls through to resolution and gets
a 404. -/
theorem c10_witness :
    stubCond c10Handler (defaultedParams c10Request.params) c10Request.userAgent ∧
    serveHTTP c10Handler c10Request
      = Outcome.redirect (stubAttributionURL c10Handler (defaultedParams c10Request.params)) ∧
    serveHTTP c10HandlerNoStub c10Request = Outcome.notFound :=
  ⟨by decide,
   c10_stub_ignores_bouncer_map c10Handler c10Request ⟨[], []⟩ (by decide),
   by decide⟩
